import Mathlib

/-
  Verification of the core of tcolr (src/main.rs): block-averaging of an
  RGB image into a grid of mean colours, followed by per-row run-length
  encoding of the grid for terminal output.

  The embedding follows the source closely:
  * machine integers (u8 / u32 / u64 / usize) become Nat, with the 8-bit
    pixel bound carried as hypotheses and the u8 cast at emission modelled
    as `% 256`;
  * Rust panics (the "Not an RGB image" panic and the arithmetic
    divide-by-zero panic) become an `Except PanicKind` result;
  * the flat row-major `rgbs` vector and its disjoint mutable slices are
    modelled as a `List RGBSum` transformed functionally slice by slice.
-/

set_option maxHeartbeats 1000000

namespace TColr

/-- An 8-bit RGB pixel, as produced by `image::Rgb<u8>`; channel values are
naturals, with the 8-bit bound `< 256` carried as hypotheses where needed. -/
structure Rgb where
  r : Nat
  g : Nat
  b : Nat
  deriving DecidableEq, Repr

/-- An RGBA pixel, as in `image::Rgba<U>`. -/
structure Rgba where
  r : Nat
  g : Nat
  b : Nat
  a : Nat
  deriving DecidableEq, Repr

/-- Per-block accumulator of channel sums (`struct RGBSum` in main.rs). -/
structure RGBSum where
  r : Nat
  g : Nat
  b : Nat
  deriving DecidableEq, Repr

namespace RGBSum

/-- `RGBSum::zero`. -/
def zero : RGBSum := ⟨0, 0, 0⟩

/-- `RGBSum::add` (only used by a commented-out code path, kept for
completeness). -/
def add (s other : RGBSum) : RGBSum := ⟨s.r + other.r, s.g + other.g, s.b + other.b⟩

/-- `RGBSum::div`: channelwise integer division. Rust u64 division by zero
panics; the pipeline reaches this call only with
`n = chunks_x * chunks_y` after both factors were validated nonzero by the
earlier block-count divisions, so the `n = 0` case is unreachable there. -/
def div (s : RGBSum) (n : Nat) : RGBSum := ⟨s.r / n, s.g / n, s.b / n⟩

/-- The `Aggregator<Rgb<U>> for RGBSum` impl: add the three channels. -/
def aggregate (s : RGBSum) (p : Rgb) : RGBSum := ⟨s.r + p.r, s.g + p.g, s.b + p.b⟩

/-- The `Aggregator<Rgba<U>> for RGBSum` impl: alpha is ignored. This
instance exists in the source but is never invoked by `main`'s pipeline. -/
def aggregateRgba (s : RGBSum) (p : Rgba) : RGBSum := ⟨s.r + p.r, s.g + p.g, s.b + p.b⟩

end RGBSum

/-- An `ImageBuffer<Rgb<u8>, _>`: dimensions plus the `get_pixel` accessor.
The accessor is total here; the pipeline only reads in-bounds coordinates
(proved below as part of the dropped-residual claim). -/
structure Image where
  width : Nat
  height : Nat
  pix : Nat → Nat → Rgb

/-- An `ImageBuffer<Rgba<U>, _>` payload for the non-RGB8 variants. -/
structure ImageRgba where
  width : Nat
  height : Nat
  pix : Nat → Nat → Rgba

/-- The variants of `image::DynamicImage` relevant to `as_rgb8`:
only `rgb8` carries an 8-bit three-channel buffer. -/
inductive DynamicImage where
  | rgb8 (img : Image)
  | rgba8 (img : ImageRgba)
  | rgb16 (img : Image)
  | rgba16 (img : ImageRgba)
  | luma8 (width height : Nat) (pix : Nat → Nat → Nat)

/-- `DynamicImage::as_rgb8`: `Some` exactly on the 8-bit RGB variant. -/
def asRgb8 : DynamicImage → Option Image
  | .rgb8 i => some i
  | _ => none

/-- The ways `main` can abort once an image is decoded: the explicit
`panic!("Not an RGB image")` and the Rust arithmetic divide-by-zero panic. -/
inductive PanicKind where
  | notRgb
  | divByZero
  deriving DecidableEq, Repr

/-- Integer division as executed by Rust `/`: panics when the divisor is
zero, otherwise truncating (floor) division. -/
def checkedDiv (a b : Nat) : Except PanicKind Nat :=
  if b = 0 then .error .divByZero else .ok (a / b)

/-- The inner x-loop of `sum_chunks_inplace` for chunk index `idx` in pixel
row `row`: aggregate pixels `x` in `[idx * chunk_width, idx * chunk_width + chunk_width)`. -/
def aggChunkRow (img : Image) (chunk_width row idx : Nat) (s : RGBSum) : RGBSum :=
  (List.range' (idx * chunk_width) chunk_width).foldl
    (fun acc x => acc.aggregate (img.pix x row)) s

/-- Walk `target` with its running index: the loop of `sum_chunks_inplace`
writes `target[idx]` exactly for `idx < image.width / chunk_width` and
leaves later entries untouched. -/
def sumChunksGo (img : Image) (chunk_width row : Nat) : Nat → List RGBSum → List RGBSum
  | _, [] => []
  | idx, s :: rest =>
      (if idx < img.width / chunk_width then aggChunkRow img chunk_width row idx s else s)
        :: sumChunksGo img chunk_width row (idx + 1) rest

/-- `sum_chunks_inplace`: add the pixels of row `row` of each full chunk
into the corresponding entry of `target`. -/
def sumChunksInplace (img : Image) (chunk_width row : Nat) (target : List RGBSum) : List RGBSum :=
  sumChunksGo img chunk_width row 0 target

/-- Functional rendering of an in-place update of the mutable slice
`l[start .. start + len]`. -/
def updateSlice (l : List RGBSum) (start len : Nat) (f : List RGBSum → List RGBSum) : List RGBSum :=
  l.take start ++ f ((l.drop start).take len) ++ l.drop (start + len)

/-- The body of `main`'s `y_chunk` aggregation loop, acting on the slice of
this grid row: accumulate pixel rows `y` in
`[y_chunk * chunks_y, y_chunk * chunks_y + chunks_y)` via
`sum_chunks_inplace`, then divide every accumulator by `n`. -/
def processRow (img : Image) (chunks_x chunks_y n y_chunk : Nat) (slice : List RGBSum) : List RGBSum :=
  ((List.range' (y_chunk * chunks_y) chunks_y).foldl
      (fun sl y => sumChunksInplace img chunks_x y sl) slice).map (fun s => s.div n)

/-- `main`'s aggregation loop over the flat row-major `rgbs` vector,
initialised to `vec![RGBSum::zero(); n_x * n_y]`: iteration `y_chunk`
rewrites the slice `[y_chunk * n_x, y_chunk * n_x + n_x)` in place. -/
def aggFlat (img : Image) (chunks_x chunks_y n_x n_y n : Nat) : List RGBSum :=
  (List.range n_y).foldl
    (fun rgbs y_chunk =>
      updateSlice rgbs (y_chunk * n_x) n_x (processRow img chunks_x chunks_y n y_chunk))
    (List.replicate (n_x * n_y) RGBSum.zero)

/-- The aggregation stage of `main` including its fallible boundary: the
block counts `n_x = width / chunks_x` and `n_y = height / chunks_y` are the
Rust divisions executed before any pixel is read, so a zero chunk dimension
aborts here. -/
def computeGridE (img : Image) (chunks_x chunks_y : Nat) : Except PanicKind (List RGBSum) := do
  let n_x ← checkedDiv img.width chunks_x
  let n_y ← checkedDiv img.height chunks_y
  pure (aggFlat img chunks_x chunks_y n_x n_y (chunks_x * chunks_y))

/-- `struct RgbCount`: the run-length encoder state. -/
structure RgbCount where
  rgb_sum : RGBSum
  count : Nat
  deriving DecidableEq, Repr

namespace RgbCount

/-- `RgbCount::is_same_rgb`: exact per-channel equality. -/
def is_same_rgb (c : RgbCount) (other : RGBSum) : Bool :=
  c.rgb_sum.r == other.r && c.rgb_sum.g == other.g && c.rgb_sum.b == other.b

/-- `RgbCount::incr`. -/
def incr (c : RgbCount) : RgbCount := { c with count := c.count + 1 }

/-- `RgbCount::is_valid`: every channel strictly below 256. -/
def is_valid (c : RgbCount) : Bool :=
  decide (c.rgb_sum.r < 256) && decide (c.rgb_sum.g < 256) && decide (c.rgb_sum.b < 256)

/-- `RgbCount::set_rgb`. -/
def set_rgb (_c : RgbCount) (rgb : RGBSum) : RgbCount := { rgb_sum := rgb, count := 1 }

/-- `RgbCount::invalid`: the sentinel initial state. -/
def invalid : RgbCount := { rgb_sum := ⟨256, 0, 0⟩, count := 1 }

end RgbCount

/-- One emitted run: the colour is built by `RGB(r as u8, g as u8, b as u8)`,
hence the `% 256` truncation, painted over `count` repeated glyphs. -/
structure Run where
  r : Nat
  g : Nat
  b : Nat
  count : Nat
  deriving DecidableEq, Repr

/-- The colour carried by a run, as an `RGBSum` triple. -/
def runColor (rn : Run) : RGBSum := ⟨rn.r, rn.g, rn.b⟩

/-- The emission of the pending state as a run (the `print!` with the cast
to u8 colour channels). -/
def emitRun (c : RgbCount) : Run :=
  ⟨c.rgb_sum.r % 256, c.rgb_sum.g % 256, c.rgb_sum.b % 256, c.count⟩

/-- One iteration of the per-row print loop of `main` over a grid cell. -/
def encodeStep (st : List Run × RgbCount) (rgb : RGBSum) : List Run × RgbCount :=
  if st.2.is_valid then
    if st.2.is_same_rgb rgb then (st.1, st.2.incr)
    else (st.1 ++ [emitRun st.2], st.2.set_rgb rgb)
  else (st.1, st.2.set_rgb rgb)

/-- Run-length encoding of one grid row, exactly as `main` performs it:
fold the cells from the `invalid` sentinel, then emit the pending state
unconditionally after the loop. -/
def encodeRow (row : List RGBSum) : List Run :=
  let st := row.foldl encodeStep ([], RgbCount.invalid)
  st.1 ++ [emitRun st.2]

/-- Decoding a run sequence: `count` copies of each colour, concatenated in
emission order. -/
def decodeRow (runs : List Run) : List RGBSum :=
  (runs.map (fun rn => List.replicate rn.count ⟨rn.r, rn.g, rn.b⟩)).flatten

/-- The pipeline of `main` after image acquisition: extract the RGB8 buffer
(panicking otherwise), compute block counts (panicking on a zero chunk
dimension), aggregate into the flat grid, then run-length encode each grid
row slice in order. -/
def tcolrMain (d : DynamicImage) (chunks_x chunks_y : Nat) :
    Except PanicKind (List (List Run)) := do
  let buf ← (match asRgb8 d with
    | some b => Except.ok b
    | none => Except.error PanicKind.notRgb)
  let n_x ← checkedDiv buf.width chunks_x
  let n_y ← checkedDiv buf.height chunks_y
  let rgbs := aggFlat buf chunks_x chunks_y n_x n_y (chunks_x * chunks_y)
  pure ((List.range n_y).map (fun y_chunk => encodeRow ((rgbs.drop (y_chunk * n_x)).take n_x)))

/-- Closed-form channel sums of block `(x_chunk, y_chunk)`: the double sum
of each channel over the block's `chunks_x * chunks_y` pixels. -/
def blockSum (img : Image) (chunks_x chunks_y x_chunk y_chunk : Nat) : RGBSum :=
  ⟨ ((List.range' (y_chunk * chunks_y) chunks_y).map fun y =>
      ((List.range' (x_chunk * chunks_x) chunks_x).map fun x => (img.pix x y).r).sum).sum,
    ((List.range' (y_chunk * chunks_y) chunks_y).map fun y =>
      ((List.range' (x_chunk * chunks_x) chunks_x).map fun x => (img.pix x y).g).sum).sum,
    ((List.range' (y_chunk * chunks_y) chunks_y).map fun y =>
      ((List.range' (x_chunk * chunks_x) chunks_x).map fun x => (img.pix x y).b).sum).sum ⟩

/-- Closed-form mean colour of a block: the block sums divided (floor) by
the exact per-block pixel count. -/
def meanColor (img : Image) (chunks_x chunks_y x_chunk y_chunk : Nat) : RGBSum :=
  (blockSum img chunks_x chunks_y x_chunk y_chunk).div (chunks_x * chunks_y)

/-- Closed-form grid: row-major list of mean colours. -/
def gridSpec (img : Image) (chunks_x chunks_y : Nat) : List RGBSum :=
  ((List.range (img.height / chunks_y)).map fun yc =>
    (List.range (img.width / chunks_x)).map fun xc =>
      meanColor img chunks_x chunks_y xc yc).flatten

/-- Aggregation state pairing the borrowed input buffer with the mutable
accumulator vector, for the frame-effect claim. -/
structure AggState where
  img : Image
  rgbs : List RGBSum

/-- `main`'s aggregation loop threaded through an explicit state holding
both the input buffer and the accumulator vector: each iteration reads
pixels from `st.img` and rewrites only the `rgbs` component. -/
def aggFlatS (chunks_x chunks_y n_x n_y n : Nat) (s : AggState) : AggState :=
  (List.range n_y).foldl
    (fun st y_chunk =>
      { st with rgbs := updateSlice st.rgbs (y_chunk * n_x) n_x
                          (processRow st.img chunks_x chunks_y n y_chunk) })
    s

/-! ## Basic lemmas about the encoder state -/

lemma RGBSum.eq_iff (a b : RGBSum) : a = b ↔ a.r = b.r ∧ a.g = b.g ∧ a.b = b.b := by
  cases a
  cases b
  simp

lemma RgbCount.is_same_rgb_iff (c : RgbCount) (o : RGBSum) :
    c.is_same_rgb o = true ↔ c.rgb_sum = o := by
  simp [RgbCount.is_same_rgb, RGBSum.eq_iff, and_assoc]

lemma RgbCount.is_valid_iff (c : RgbCount) :
    c.is_valid = true ↔ c.rgb_sum.r < 256 ∧ c.rgb_sum.g < 256 ∧ c.rgb_sum.b < 256 := by
  simp [RgbCount.is_valid, and_assoc]

lemma RgbCount.invalid_not_valid : RgbCount.invalid.is_valid = false := by
  decide

lemma RgbCount.incr_is_valid (c : RgbCount) : c.incr.is_valid = c.is_valid := rfl

lemma runColor_emitRun_valid (c : RgbCount) (h : c.is_valid = true) :
    runColor (emitRun c) = c.rgb_sum := by
  obtain ⟨h1, h2, h3⟩ := (RgbCount.is_valid_iff c).mp h
  simp [runColor, emitRun, Nat.mod_eq_of_lt, h1, h2, h3]

lemma decodeRow_append (xs ys : List Run) :
    decodeRow (xs ++ ys) = decodeRow xs ++ decodeRow ys := by
  simp [decodeRow]

lemma decodeRow_valid_single (c : RgbCount) (h : c.is_valid = true) :
    decodeRow [emitRun c] = List.replicate c.count c.rgb_sum := by
  obtain ⟨h1, h2, h3⟩ := (RgbCount.is_valid_iff c).mp h
  simp [decodeRow, emitRun, Nat.mod_eq_of_lt, h1, h2, h3]

/-! ## The master invariant of the per-row encoding loop

Folding `encodeStep` over further cells (all with 8-bit-bounded channels),
starting from a valid state with positive count, preserves validity and
positive count, extends the decoded output by exactly the cells consumed,
keeps all counts positive, and preserves maximality of the run colours. -/

lemma encode_fold_spec (l : List RGBSum)
    (hb : ∀ c ∈ l, c.r < 256 ∧ c.g < 256 ∧ c.b < 256) :
    ∀ (out : List Run) (rc : RgbCount), rc.is_valid = true → 1 ≤ rc.count →
      decodeRow ((l.foldl encodeStep (out, rc)).1 ++ [emitRun (l.foldl encodeStep (out, rc)).2])
          = decodeRow (out ++ [emitRun rc]) ++ l
      ∧ (l.foldl encodeStep (out, rc)).2.is_valid = true
      ∧ 1 ≤ (l.foldl encodeStep (out, rc)).2.count
      ∧ ((∀ rn ∈ out ++ [emitRun rc], 1 ≤ rn.count) →
          ∀ rn ∈ (l.foldl encodeStep (out, rc)).1
                  ++ [emitRun (l.foldl encodeStep (out, rc)).2], 1 ≤ rn.count)
      ∧ (List.Chain' (fun a b => a ≠ b) ((out ++ [emitRun rc]).map runColor) →
          List.Chain' (fun a b => a ≠ b)
            (((l.foldl encodeStep (out, rc)).1
               ++ [emitRun (l.foldl encodeStep (out, rc)).2]).map runColor)) := by
  induction l with
  | nil =>
      intro out rc hval hcnt
      exact ⟨by simp, hval, hcnt, fun h => h, fun h => h⟩
  | cons c l ih =>
      intro out rc hval hcnt
      have hc : c.r < 256 ∧ c.g < 256 ∧ c.b < 256 := hb c (by simp)
      have hl : ∀ d ∈ l, d.r < 256 ∧ d.g < 256 ∧ d.b < 256 :=
        fun d hd => hb d (by simp [hd])
      cases hsame : rc.is_same_rgb c with
      | true =>
          have hcc : rc.rgb_sum = c := (RgbCount.is_same_rgb_iff rc c).mp hsame
          have hstep : (c :: l).foldl encodeStep (out, rc)
              = l.foldl encodeStep (out, rc.incr) := by
            simp [List.foldl_cons, encodeStep, hval, hsame]
          have hvalincr : rc.incr.is_valid = true := by
            rw [RgbCount.incr_is_valid]; exact hval
          obtain ⟨ih1, ih2, ih3, ih4, ih5⟩ := ih hl out rc.incr hvalincr (by
            simp [RgbCount.incr])
          rw [hstep]
          have hdec : decodeRow (out ++ [emitRun rc.incr])
              = decodeRow (out ++ [emitRun rc]) ++ [c] := by
            rw [decodeRow_append, decodeRow_append,
              decodeRow_valid_single rc hval, decodeRow_valid_single rc.incr hvalincr]
            have : rc.incr.rgb_sum = rc.rgb_sum := rfl
            rw [this, hcc]
            show decodeRow out ++ List.replicate (rc.count + 1) c
              = decodeRow out ++ List.replicate rc.count c ++ [c]
            rw [List.replicate_succ' rc.count c, List.append_assoc]
          refine ⟨?_, ih2, ih3, ?_, ?_⟩
          · rw [ih1, hdec, List.append_assoc]
            simp
          · intro hcounts
            refine ih4 ?_
            intro rn hrn
            rcases List.mem_append.mp hrn with h | h
            · exact hcounts rn (List.mem_append.mpr (Or.inl h))
            · simp at h
              subst h
              simp [emitRun, RgbCount.incr]
          · intro hchain
            refine ih5 ?_
            have : runColor (emitRun rc.incr) = runColor (emitRun rc) := rfl
            simpa [this] using hchain
      | false =>
          have hne : rc.rgb_sum ≠ c := by
            intro hcontra
            have := (RgbCount.is_same_rgb_iff rc c).mpr hcontra
            rw [this] at hsame
            cases hsame
          have hstep : (c :: l).foldl encodeStep (out, rc)
              = l.foldl encodeStep (out ++ [emitRun rc], rc.set_rgb c) := by
            simp [List.foldl_cons, encodeStep, hval, hsame]
          have hvalnew : (rc.set_rgb c).is_valid = true := by
            rw [RgbCount.is_valid_iff]
            exact hc
          obtain ⟨ih1, ih2, ih3, ih4, ih5⟩ :=
            ih hl (out ++ [emitRun rc]) (rc.set_rgb c) hvalnew (by simp [RgbCount.set_rgb])
          rw [hstep]
          have hdec : decodeRow ((out ++ [emitRun rc]) ++ [emitRun (rc.set_rgb c)])
              = decodeRow (out ++ [emitRun rc]) ++ [c] := by
            rw [decodeRow_append, decodeRow_valid_single (rc.set_rgb c) hvalnew]
            simp [RgbCount.set_rgb]
          refine ⟨?_, ih2, ih3, ?_, ?_⟩
          · rw [ih1, hdec, List.append_assoc]
            simp
          · intro hcounts
            refine ih4 ?_
            intro rn hrn
            rcases List.mem_append.mp hrn with h | h
            · exact hcounts rn h
            · simp at h
              subst h
              simp [emitRun, RgbCount.set_rgb]
          · intro hchain
            refine ih5 ?_
            rw [List.map_append, List.map_append]
            refine (List.chain'_append).mpr ⟨?_, List.chain'_singleton _, ?_⟩
            · simpa using hchain
            · intro x hx y hy
              simp at hy
              subst hy
              have hx2 : x = runColor (emitRun rc) := by
                simp only [List.map_cons, List.map_nil] at hx
                rw [List.getLast?_concat] at hx
                exact (by simpa using hx : runColor (emitRun rc) = x).symm
              rw [hx2, runColor_emitRun_valid rc hval,
                runColor_emitRun_valid (rc.set_rgb c) hvalnew]
              simpa [RgbCount.set_rgb] using hne

/-- The first cell of a row always hits the `else` branch (the sentinel is
not valid) and installs the cell with count 1. -/
lemma encode_first_step (c : RGBSum) (l : List RGBSum) :
    (c :: l).foldl encodeStep ([], RgbCount.invalid)
      = l.foldl encodeStep ([], RgbCount.set_rgb RgbCount.invalid c) := by
  simp [List.foldl_cons, encodeStep, RgbCount.invalid_not_valid]

/-- Full per-row specification for a non-empty row of 8-bit-bounded cells:
encoding then decoding restores the row, run colours are pairwise distinct
between neighbours, all counts are positive, and the final encoder state is
valid. -/
lemma encodeRow_cons_spec (c : RGBSum) (l : List RGBSum)
    (hc : c.r < 256 ∧ c.g < 256 ∧ c.b < 256)
    (hl : ∀ d ∈ l, d.r < 256 ∧ d.g < 256 ∧ d.b < 256) :
    decodeRow (encodeRow (c :: l)) = c :: l
    ∧ List.Chain' (fun a b => a ≠ b) ((encodeRow (c :: l)).map runColor)
    ∧ (∀ rn ∈ encodeRow (c :: l), 1 ≤ rn.count)
    ∧ ((c :: l).foldl encodeStep ([], RgbCount.invalid)).2.is_valid = true := by
  have hval1 : (RgbCount.set_rgb RgbCount.invalid c).is_valid = true := by
    rw [RgbCount.is_valid_iff]
    exact hc
  obtain ⟨ih1, ih2, ih3, ih4, ih5⟩ :=
    encode_fold_spec l hl [] (RgbCount.set_rgb RgbCount.invalid c) hval1
      (by simp [RgbCount.set_rgb])
  have henc : encodeRow (c :: l)
      = (l.foldl encodeStep ([], RgbCount.set_rgb RgbCount.invalid c)).1
        ++ [emitRun (l.foldl encodeStep ([], RgbCount.set_rgb RgbCount.invalid c)).2] := by
    rw [encodeRow, encode_first_step]
  have hdecin : decodeRow ([] ++ [emitRun (RgbCount.set_rgb RgbCount.invalid c)]) = [c] := by
    rw [List.nil_append, decodeRow_valid_single _ hval1]
    simp [RgbCount.set_rgb]
  refine ⟨?_, ?_, ?_, ?_⟩
  · rw [henc, ih1, hdecin]
    simp
  · rw [henc]
    refine ih5 ?_
    have : runColor (emitRun (RgbCount.set_rgb RgbCount.invalid c)) = c := by
      rw [runColor_emitRun_valid _ hval1]
      rfl
    simp [this]
  · rw [henc]
    refine ih4 ?_
    intro rn hrn
    simp at hrn
    subst hrn
    simp [emitRun, RgbCount.set_rgb]
  · rw [encode_first_step]
    exact ih2

/-- Decode is a left inverse of encode on every non-empty bounded row. -/
lemma decode_encode_of_ne_nil (l : List RGBSum) (hne : l ≠ [])
    (hb : ∀ c ∈ l, c.r < 256 ∧ c.g < 256 ∧ c.b < 256) :
    decodeRow (encodeRow l) = l := by
  cases l with
  | nil => exact absurd rfl hne
  | cons c l =>
      exact (encodeRow_cons_spec c l (hb c (by simp))
        (fun d hd => hb d (by simp [hd]))).1

/-- Folding more copies of the installed colour only increments the count. -/
lemma foldl_encodeStep_replicate (c : RGBSum)
    (hc : c.r < 256 ∧ c.g < 256 ∧ c.b < 256) :
    ∀ (m : Nat) (out : List Run) (k : Nat),
      (List.replicate m c).foldl encodeStep (out, ⟨c, k⟩)
        = (out, ⟨c, k + m⟩) := by
  intro m
  induction m with
  | zero => intro out k; simp
  | succ m ih =>
      intro out k
      have hval : (⟨c, k⟩ : RgbCount).is_valid = true := by
        rw [RgbCount.is_valid_iff]
        exact hc
      have hsame : (⟨c, k⟩ : RgbCount).is_same_rgb c = true :=
        (RgbCount.is_same_rgb_iff _ _).mpr rfl
      have : (⟨c, k⟩ : RgbCount).incr = ⟨c, k + 1⟩ := rfl
      rw [List.replicate_succ, List.foldl_cons]
      simp only [encodeStep, hval, hsame, if_true, this]
      rw [ih out (k + 1)]
      congr 2
      omega

/-- A uniform non-empty row encodes to exactly one run carrying the common
colour and the row length. -/
lemma encodeRow_replicate (c : RGBSum)
    (hc : c.r < 256 ∧ c.g < 256 ∧ c.b < 256) (m : Nat) :
    encodeRow (List.replicate (m + 1) c) = [⟨c.r, c.g, c.b, m + 1⟩] := by
  rw [encodeRow, List.replicate_succ, encode_first_step]
  have hset : RgbCount.set_rgb RgbCount.invalid c = ⟨c, 1⟩ := rfl
  rw [hset, foldl_encodeStep_replicate c hc m [] 1]
  obtain ⟨h1, h2, h3⟩ := hc
  simp [emitRun, Nat.mod_eq_of_lt, h1, h2, h3, Nat.add_comm]

/-! ## Closed form of the aggregation stage -/

lemma foldl_aggregate_closed (p : Nat → Rgb) (l : List Nat) :
    ∀ s : RGBSum,
      l.foldl (fun acc x => acc.aggregate (p x)) s
        = ⟨s.r + (l.map fun x => (p x).r).sum,
           s.g + (l.map fun x => (p x).g).sum,
           s.b + (l.map fun x => (p x).b).sum⟩ := by
  induction l with
  | nil => intro s; simp
  | cons x xs ih =>
      intro s
      rw [List.foldl_cons, ih]
      simp [RGBSum.aggregate, Nat.add_assoc]

lemma aggChunkRow_closed (img : Image) (cx row idx : Nat) (s : RGBSum) :
    aggChunkRow img cx row idx s
      = ⟨s.r + ((List.range' (idx * cx) cx).map fun x => (img.pix x row).r).sum,
         s.g + ((List.range' (idx * cx) cx).map fun x => (img.pix x row).g).sum,
         s.b + ((List.range' (idx * cx) cx).map fun x => (img.pix x row).b).sum⟩ := by
  unfold aggChunkRow
  exact foldl_aggregate_closed (fun x => img.pix x row) _ s

lemma foldl_sumChunksGo_nil (img : Image) (cx : Nat) (ys : List Nat) (j : Nat) :
    ys.foldl (fun sl y => sumChunksGo img cx y j sl) [] = [] := by
  induction ys with
  | nil => rfl
  | cons y ys ih => rw [List.foldl_cons]; exact ih

lemma foldl_sumChunksGo_cons (img : Image) (cx : Nat) (ys : List Nat) :
    ∀ (j : Nat) (s : RGBSum) (rest : List RGBSum),
      ys.foldl (fun sl y => sumChunksGo img cx y j sl) (s :: rest)
        = (ys.foldl (fun s0 y =>
              if j < img.width / cx then aggChunkRow img cx y j s0 else s0) s)
          :: ys.foldl (fun sl y => sumChunksGo img cx y (j + 1) sl) rest := by
  induction ys with
  | nil => intro j s rest; simp
  | cons y ys ih =>
      intro j s rest
      rw [List.foldl_cons, List.foldl_cons, List.foldl_cons]
      rw [show sumChunksGo img cx y j (s :: rest)
            = (if j < img.width / cx then aggChunkRow img cx y j s else s)
              :: sumChunksGo img cx y (j + 1) rest from rfl]
      exact ih j _ _

lemma foldl_aggChunkRow_closed (img : Image) (cx j : Nat) (ys : List Nat) :
    ∀ s : RGBSum,
      ys.foldl (fun s0 y => aggChunkRow img cx y j s0) s
        = ⟨s.r + (ys.map fun y =>
              ((List.range' (j * cx) cx).map fun x => (img.pix x y).r).sum).sum,
           s.g + (ys.map fun y =>
              ((List.range' (j * cx) cx).map fun x => (img.pix x y).g).sum).sum,
           s.b + (ys.map fun y =>
              ((List.range' (j * cx) cx).map fun x => (img.pix x y).b).sum).sum⟩ := by
  induction ys with
  | nil => intro s; simp
  | cons y ys ih =>
      intro s
      rw [List.foldl_cons, aggChunkRow_closed, ih]
      simp [Nat.add_assoc]

lemma accRow_closed (img : Image) (cx : Nat) (ys : List Nat) :
    ∀ (k j : Nat), j + k ≤ img.width / cx →
      ys.foldl (fun sl y => sumChunksGo img cx y j sl) (List.replicate k RGBSum.zero)
        = (List.range' j k).map (fun idx =>
            ⟨(ys.map fun y =>
                ((List.range' (idx * cx) cx).map fun x => (img.pix x y).r).sum).sum,
             (ys.map fun y =>
                ((List.range' (idx * cx) cx).map fun x => (img.pix x y).g).sum).sum,
             (ys.map fun y =>
                ((List.range' (idx * cx) cx).map fun x => (img.pix x y).b).sum).sum⟩) := by
  intro k
  induction k with
  | zero =>
      intro j _
      rw [List.replicate_zero, foldl_sumChunksGo_nil]
      simp
  | succ k ih =>
      intro j h
      have hj : j < img.width / cx := by omega
      have hif : (fun (s0 : RGBSum) (y : Nat) =>
            if j < img.width / cx then aggChunkRow img cx y j s0 else s0)
          = (fun s0 y => aggChunkRow img cx y j s0) := by
        funext s0 y
        rw [if_pos hj]
      rw [List.replicate_succ, foldl_sumChunksGo_cons, hif, List.range'_succ, List.map_cons]
      congr 1
      · rw [foldl_aggChunkRow_closed]
        simp [RGBSum.zero]
      · exact ih (j + 1) (by omega)

lemma processRow_closed (img : Image) (cx cy n yc : Nat) :
    processRow img cx cy n yc (List.replicate (img.width / cx) RGBSum.zero)
      = (List.range (img.width / cx)).map
          (fun xc => (blockSum img cx cy xc yc).div n) := by
  rw [processRow]
  simp only [sumChunksInplace]
  rw [accRow_closed img cx _ (img.width / cx) 0 (by omega), List.map_map,
    List.range_eq_range']
  simp [blockSum, Function.comp]

/-- One grid row in closed form: the mean colours of its blocks. -/
def gridRowSpec (img : Image) (cx cy n yc : Nat) : List RGBSum :=
  (List.range (img.width / cx)).map (fun xc => (blockSum img cx cy xc yc).div n)

lemma processRow_closed_row (img : Image) (cx cy n yc : Nat) :
    processRow img cx cy n yc (List.replicate (img.width / cx) RGBSum.zero)
      = gridRowSpec img cx cy n yc :=
  processRow_closed img cx cy n yc

lemma gridRowSpec_length (img : Image) (cx cy n yc : Nat) :
    (gridRowSpec img cx cy n yc).length = img.width / cx := by
  simp [gridRowSpec]

lemma flatten_rows_length (img : Image) (cx cy n j : Nat) :
    (((List.range j).map (gridRowSpec img cx cy n)).flatten).length
      = j * (img.width / cx) := by
  rw [List.length_flatten, List.map_map]
  have : (List.range j).map (List.length ∘ gridRowSpec img cx cy n)
      = List.replicate j (img.width / cx) := by
    rw [List.eq_replicate_iff]
    refine ⟨by simp, ?_⟩
    intro b hb
    simp at hb
    obtain ⟨a, _, ha⟩ := hb
    rw [← ha]
    simp [gridRowSpec]
  rw [this, List.sum_replicate, smul_eq_mul]

/-- The flat in-place aggregation loop computes exactly the concatenation of
the closed-form grid rows. -/
lemma aggFlat_closed (img : Image) (cx cy n n_y : Nat) :
    aggFlat img cx cy (img.width / cx) n_y n
      = ((List.range n_y).map (gridRowSpec img cx cy n)).flatten := by
  have main : ∀ j, j ≤ n_y →
      (List.range j).foldl
        (fun rgbs y_chunk =>
          updateSlice rgbs (y_chunk * (img.width / cx)) (img.width / cx)
            (processRow img cx cy n y_chunk))
        (List.replicate ((img.width / cx) * n_y) RGBSum.zero)
      = ((List.range j).map (gridRowSpec img cx cy n)).flatten
        ++ List.replicate ((n_y - j) * (img.width / cx)) RGBSum.zero := by
    intro j
    induction j with
    | zero => intro _; simp [Nat.mul_comm]
    | succ j ih =>
        intro h
        rw [List.range_succ, List.foldl_append, ih (by omega), List.foldl_cons,
          List.foldl_nil]
        have hA : (((List.range j).map (gridRowSpec img cx cy n)).flatten).length
            = j * (img.width / cx) := flatten_rows_length img cx cy n j
        have hxle : img.width / cx ≤ (n_y - j) * (img.width / cx) := by
          have h1 : 1 ≤ n_y - j := by omega
          calc img.width / cx = 1 * (img.width / cx) := (one_mul _).symm
            _ ≤ (n_y - j) * (img.width / cx) := Nat.mul_le_mul_right _ h1
        rw [updateSlice]
        rw [List.take_left' hA, List.drop_left' hA, List.take_replicate,
          Nat.min_eq_left hxle, processRow_closed_row]
        have hdrop : (((List.range j).map (gridRowSpec img cx cy n)).flatten
              ++ List.replicate ((n_y - j) * (img.width / cx)) RGBSum.zero).drop
                (j * (img.width / cx) + (img.width / cx))
            = List.replicate ((n_y - (j + 1)) * (img.width / cx)) RGBSum.zero := by
          rw [← hA, List.drop_append, List.drop_replicate]
          congr 1
          rw [show n_y - (j + 1) = (n_y - j) - 1 by omega, Nat.sub_one_mul]
        rw [hdrop]
        simp [List.append_assoc]
  have := main n_y (by omega)
  rw [Nat.sub_self, Nat.zero_mul, List.replicate_zero, List.append_nil] at this
  rw [aggFlat]
  exact this

/-- Validated aggregation produces exactly the closed-form grid. -/
lemma computeGrid_closed (img : Image) (cx cy : Nat) (hcx : cx ≠ 0) (hcy : cy ≠ 0) :
    computeGridE img cx cy = Except.ok (gridSpec img cx cy) := by
  rw [computeGridE]
  simp only [checkedDiv, if_neg hcx, if_neg hcy]
  rw [show (Except.ok (img.width / cx) : Except PanicKind Nat) >>= (fun n_x =>
        (Except.ok (img.height / cy) : Except PanicKind Nat) >>= (fun n_y =>
          pure (aggFlat img cx cy n_x n_y (cx * cy))))
      = Except.ok (aggFlat img cx cy (img.width / cx) (img.height / cy) (cx * cy)) from rfl]
  rw [aggFlat_closed]
  rfl

/-- Extracting the row slice `[yc * k, yc * k + k)` from the flattening of
rows of uniform length `k` recovers row `yc`. -/
lemma flatten_slice {α : Type _} :
    ∀ (L : List (List α)) (k : Nat), (∀ l ∈ L, l.length = k) →
      ∀ (yc : Nat), (hyc : yc < L.length) →
        ((L.flatten).drop (yc * k)).take k = L.get ⟨yc, hyc⟩ := by
  intro L
  induction L with
  | nil =>
      intro k h yc hyc
      simp at hyc
  | cons l L ih =>
      intro k h yc hyc
      have hl : l.length = k := h l (by simp)
      cases yc with
      | zero =>
          simp only [Nat.zero_mul, List.drop_zero, List.flatten_cons]
          rw [List.take_left' hl]
          rfl
      | succ yc =>
          rw [List.flatten_cons,
            show (yc + 1) * k = l.length + yc * k by rw [hl, Nat.succ_mul]; omega,
            List.drop_append]
          exact ih k (fun m hm => h m (by simp [hm])) yc (by simpa using hyc)

/-- The full pipeline on a validated RGB8 image: one encoded run list per
closed-form grid row. -/
lemma tcolrMain_rgb8_closed (img : Image) (cx cy : Nat) (hcx : cx ≠ 0) (hcy : cy ≠ 0) :
    tcolrMain (DynamicImage.rgb8 img) cx cy
      = Except.ok ((List.range (img.height / cy)).map
          (fun yc => encodeRow (gridRowSpec img cx cy (cx * cy) yc))) := by
  rw [tcolrMain]
  simp only [asRgb8, checkedDiv, if_neg hcx, if_neg hcy]
  rw [show ((Except.ok img : Except PanicKind Image) >>= (fun buf =>
        (Except.ok (buf.width / cx) : Except PanicKind Nat) >>= (fun n_x =>
          (Except.ok (buf.height / cy) : Except PanicKind Nat) >>= (fun n_y =>
            pure ((List.range n_y).map (fun y_chunk =>
              encodeRow (((aggFlat buf cx cy n_x n_y (cx * cy)).drop
                (y_chunk * n_x)).take n_x)))))))
      = Except.ok ((List.range (img.height / cy)).map (fun y_chunk =>
          encodeRow (((aggFlat img cx cy (img.width / cx) (img.height / cy)
            (cx * cy)).drop (y_chunk * (img.width / cx))).take (img.width / cx))))
      from rfl]
  refine congrArg Except.ok ?_
  refine List.map_congr_left ?_
  intro yc hyc
  have hyc2 : yc < img.height / cy := List.mem_range.mp hyc
  rw [aggFlat_closed]
  have hlen : ∀ l ∈ (List.range (img.height / cy)).map (gridRowSpec img cx cy (cx * cy)),
      l.length = img.width / cx := by
    intro l hl
    simp at hl
    obtain ⟨a, _, ha⟩ := hl
    rw [← ha]
    exact gridRowSpec_length img cx cy (cx * cy) a
  have hyc3 : yc < ((List.range (img.height / cy)).map
      (gridRowSpec img cx cy (cx * cy))).length := by
    simpa using hyc2
  rw [flatten_slice _ _ hlen yc hyc3]
  congr 1
  rw [List.get_eq_getElem]
  simp

/-! ## Channel bounds: means of 8-bit pixels stay below 256 -/

lemma double_sum_le (f : Nat → Nat → Nat) (hf : ∀ x y, f x y ≤ 255)
    (a cx b cy : Nat) :
    ((List.range' b cy).map fun y => ((List.range' a cx).map fun x => f x y).sum).sum
      ≤ 255 * (cx * cy) := by
  have inner : ∀ y, ((List.range' a cx).map fun x => f x y).sum ≤ cx * 255 := by
    intro y
    have h := List.sum_le_card_nsmul ((List.range' a cx).map fun x => f x y) 255 ?_
    · simpa [smul_eq_mul] using h
    · intro x hx
      simp at hx
      obtain ⟨i, _, hi⟩ := hx
      rw [← hi]
      exact hf i y
  have houter := List.sum_le_card_nsmul
    ((List.range' b cy).map fun y => ((List.range' a cx).map fun x => f x y).sum)
    (cx * 255) ?_
  · calc ((List.range' b cy).map fun y =>
          ((List.range' a cx).map fun x => f x y).sum).sum
        ≤ _ := houter
      _ ≤ 255 * (cx * cy) := by simp [smul_eq_mul]; ring_nf; omega
  · intro s hs
    simp at hs
    obtain ⟨y, _, hy⟩ := hs
    rw [← hy]
    exact inner y

lemma meanColor_bounded (img : Image) (cx cy xc yc : Nat)
    (hcx : 0 < cx) (hcy : 0 < cy)
    (h8 : ∀ x y, (img.pix x y).r < 256 ∧ (img.pix x y).g < 256 ∧ (img.pix x y).b < 256) :
    (meanColor img cx cy xc yc).r < 256
    ∧ (meanColor img cx cy xc yc).g < 256
    ∧ (meanColor img cx cy xc yc).b < 256 := by
  have hpos : 0 < cx * cy := Nat.mul_pos hcx hcy
  have key : ∀ (s : Nat), s ≤ 255 * (cx * cy) → s / (cx * cy) < 256 := by
    intro s hs
    have h1 : s / (cx * cy) ≤ 255 * (cx * cy) / (cx * cy) := Nat.div_le_div_right hs
    rw [Nat.mul_div_cancel 255 hpos] at h1
    omega
  refine ⟨key _ ?_, key _ ?_, key _ ?_⟩
  · exact double_sum_le (fun x y => (img.pix x y).r)
      (fun x y => by show (img.pix x y).r ≤ 255; have := (h8 x y).1; omega) _ cx _ cy
  · exact double_sum_le (fun x y => (img.pix x y).g)
      (fun x y => by show (img.pix x y).g ≤ 255; have := (h8 x y).2.1; omega) _ cx _ cy
  · exact double_sum_le (fun x y => (img.pix x y).b)
      (fun x y => by show (img.pix x y).b ≤ 255; have := (h8 x y).2.2; omega) _ cx _ cy

lemma gridRowSpec_bounded (img : Image) (cx cy yc : Nat)
    (hcx : 0 < cx) (hcy : 0 < cy)
    (h8 : ∀ x y, (img.pix x y).r < 256 ∧ (img.pix x y).g < 256 ∧ (img.pix x y).b < 256) :
    ∀ c ∈ gridRowSpec img cx cy (cx * cy) yc,
      c.r < 256 ∧ c.g < 256 ∧ c.b < 256 := by
  intro c hc
  simp [gridRowSpec] at hc
  obtain ⟨xc, _, hxc⟩ := hc
  rw [← hxc]
  exact meanColor_bounded img cx cy xc yc hcx hcy h8

/-! ## Residual pixels are never read -/

lemma blockSum_congr (img img2 : Image) (cx cy xc yc : Nat)
    (hagree : ∀ x y, x < (img.width / cx) * cx → y < (img.height / cy) * cy →
      img2.pix x y = img.pix x y)
    (hxc : xc < img.width / cx) (hyc : yc < img.height / cy) :
    blockSum img2 cx cy xc yc = blockSum img cx cy xc yc := by
  have hpix : ∀ y ∈ List.range' (yc * cy) cy, ∀ x ∈ List.range' (xc * cx) cx,
      img2.pix x y = img.pix x y := by
    intro y hy x hx
    rw [List.mem_range'_1] at hy hx
    refine hagree x y ?_ ?_
    · have h1 : x < (xc + 1) * cx := by rw [Nat.succ_mul]; omega
      have h2 : (xc + 1) * cx ≤ (img.width / cx) * cx := Nat.mul_le_mul_right cx hxc
      omega
    · have h1 : y < (yc + 1) * cy := by rw [Nat.succ_mul]; omega
      have h2 : (yc + 1) * cy ≤ (img.height / cy) * cy := Nat.mul_le_mul_right cy hyc
      omega
  unfold blockSum
  rw [RGBSum.eq_iff]
  refine ⟨?_, ?_, ?_⟩ <;>
  · refine congrArg List.sum (List.map_congr_left ?_)
    intro y hy
    refine congrArg List.sum (List.map_congr_left ?_)
    intro x hx
    rw [hpix y hy x hx]

lemma gridSpec_congr (img img2 : Image) (cx cy : Nat)
    (hw : img2.width = img.width) (hh : img2.height = img.height)
    (hagree : ∀ x y, x < (img.width / cx) * cx → y < (img.height / cy) * cy →
      img2.pix x y = img.pix x y) :
    gridSpec img2 cx cy = gridSpec img cx cy := by
  unfold gridSpec
  rw [hw, hh]
  refine congrArg List.flatten (List.map_congr_left ?_)
  intro yc hyc
  refine List.map_congr_left ?_
  intro xc hxc
  unfold meanColor
  rw [blockSum_congr img img2 cx cy xc yc hagree
    (List.mem_range.mp hxc) (List.mem_range.mp hyc)]

lemma gridSpec_length (img : Image) (cx cy : Nat) :
    (gridSpec img cx cy).length = (img.height / cy) * (img.width / cx) :=
  flatten_rows_length img cx cy (cx * cy) (img.height / cy)

/-! ## Uniform images -/

lemma sum_map_const {α : Type _} (l : List α) (v : Nat) :
    (l.map fun _ => v).sum = l.length * v := by
  induction l with
  | nil => simp
  | cons a l ih => simp [ih, Nat.succ_mul, Nat.add_comm]

lemma meanColor_uniform (w h r g b cx cy xc yc : Nat) (hcx : 0 < cx) (hcy : 0 < cy) :
    meanColor ⟨w, h, fun _ _ => ⟨r, g, b⟩⟩ cx cy xc yc = ⟨r, g, b⟩ := by
  have hpos : 0 < cx * cy := Nat.mul_pos hcx hcy
  have hsum : ∀ v : Nat,
      ((List.range' (yc * cy) cy).map fun _ =>
        ((List.range' (xc * cx) cx).map fun _ => v).sum).sum = cx * cy * v := by
    intro v
    have h1 : ((List.range' (xc * cx) cx).map fun _ => v).sum = cx * v := by
      rw [sum_map_const]
      simp
    simp only [h1, sum_map_const, List.length_range']
    ring
  have hdiv : ∀ v : Nat, cx * cy * v / (cx * cy) = v :=
    fun v => Nat.mul_div_cancel_left v hpos
  have harith : ∀ v : Nat, cy * (cx * v) / (cx * cy) = v := by
    intro v
    rw [show cy * (cx * v) = cx * cy * v by ring]
    exact hdiv v
  rw [RGBSum.eq_iff]
  refine ⟨?_, ?_, ?_⟩ <;> simp [meanColor, blockSum, RGBSum.div, hsum, hdiv, harith]

lemma gridRowSpec_uniform (w h r g b cx cy yc : Nat) (hcx : 0 < cx) (hcy : 0 < cy) :
    gridRowSpec ⟨w, h, fun _ _ => ⟨r, g, b⟩⟩ cx cy (cx * cy) yc
      = List.replicate (w / cx) ⟨r, g, b⟩ := by
  rw [List.eq_replicate_iff]
  constructor
  · exact gridRowSpec_length _ cx cy (cx * cy) yc
  · intro c hc
    simp only [gridRowSpec] at hc
    rw [List.mem_map] at hc
    obtain ⟨xc, _, hxc⟩ := hc
    rw [← hxc]
    exact meanColor_uniform w h r g b cx cy xc yc hcx hcy

lemma flatten_map_replicate {α : Type _} (m k : Nat) (c : α) :
    ((List.range m).map (fun _ => List.replicate k c)).flatten
      = List.replicate (m * k) c := by
  induction m with
  | zero => simp
  | succ m ih =>
      rw [List.range_succ, List.map_append, List.flatten_append, ih, Nat.succ_mul,
        List.replicate_add]
      simp

/-- The per-row loop on an empty slice performs no comparisons and still
emits the pending sentinel once. -/
lemma encodeRow_nil_eq : encodeRow ([] : List RGBSum) = [⟨0, 0, 0, 1⟩] := rfl

/-- Every emitted run is the emission of some encoder state, hence its
channels are `% 256` values. -/
lemma encode_runs_are_emits (l : List RGBSum) :
    ∀ (out : List Run) (rc : RgbCount), (∀ rn ∈ out, ∃ c0, rn = emitRun c0) →
      ∀ rn ∈ (l.foldl encodeStep (out, rc)).1 ++ [emitRun (l.foldl encodeStep (out, rc)).2],
        ∃ c0, rn = emitRun c0 := by
  induction l with
  | nil =>
      intro out rc hout rn hrn
      rcases List.mem_append.mp hrn with h | h
      · exact hout rn h
      · simp at h
        exact ⟨rc, h⟩
  | cons c l ih =>
      intro out rc hout
      rw [List.foldl_cons]
      by_cases hv : rc.is_valid = true
      · by_cases hs : rc.is_same_rgb c = true
        · rw [show encodeStep (out, rc) c = (out, rc.incr) by simp [encodeStep, hv, hs]]
          exact ih out rc.incr hout
        · rw [show encodeStep (out, rc) c = (out ++ [emitRun rc], rc.set_rgb c) by
            simp [encodeStep, hv, hs]]
          refine ih (out ++ [emitRun rc]) (rc.set_rgb c) ?_
          intro rn hrn
          rcases List.mem_append.mp hrn with h | h
          · exact hout rn h
          · simp at h
            exact ⟨rc, h⟩
      · rw [show encodeStep (out, rc) c = (out, rc.set_rgb c) by
          simp [encodeStep, hv]]
        exact ih out (rc.set_rgb c) hout

/-- Every run ever printed carries 8-bit channel values. -/
lemma encodeRow_channels_le (l : List RGBSum) :
    ∀ rn ∈ encodeRow l, rn.r ≤ 255 ∧ rn.g ≤ 255 ∧ rn.b ≤ 255 := by
  intro rn hrn
  have h := encode_runs_are_emits l [] RgbCount.invalid (by simp) rn
    (by simpa [encodeRow] using hrn)
  obtain ⟨c0, rfl⟩ := h
  refine ⟨?_, ?_, ?_⟩ <;>
  · show _ % 256 ≤ 255
    omega

/-- The stateful aggregation loop never writes the image component and its
`rgbs` component computes the pure flat fold. -/
lemma aggFlatS_spec (cx cy n_x n : Nat) (l : List Nat) :
    ∀ s : AggState,
      (l.foldl (fun st y_chunk =>
          { st with rgbs := updateSlice st.rgbs (y_chunk * n_x) n_x
                              (processRow st.img cx cy n y_chunk) }) s).img = s.img
      ∧ (l.foldl (fun st y_chunk =>
          { st with rgbs := updateSlice st.rgbs (y_chunk * n_x) n_x
                              (processRow st.img cx cy n y_chunk) }) s).rgbs
          = l.foldl (fun r y_chunk => updateSlice r (y_chunk * n_x) n_x
              (processRow s.img cx cy n y_chunk)) s.rgbs := by
  induction l with
  | nil => intro s; exact ⟨rfl, rfl⟩
  | cons y l ih =>
      intro s
      rw [List.foldl_cons, List.foldl_cons]
      exact ih ⟨s.img, updateSlice s.rgbs (y * n_x) n_x (processRow s.img cx cy n y)⟩

lemma map_const_eq_replicate {α β : Type _} (l : List α) (c : β) :
    l.map (fun _ => c) = List.replicate l.length c := by
  induction l with
  | nil => rfl
  | cons a l ih => simp [ih, List.replicate_succ]

/-- The slice `main` takes for printing grid row `yc` is exactly the
closed-form row. -/
lemma gridSpec_slice (img : Image) (cx cy yc : Nat) (hyc : yc < img.height / cy) :
    ((gridSpec img cx cy).drop (yc * (img.width / cx))).take (img.width / cx)
      = gridRowSpec img cx cy (cx * cy) yc := by
  have hlen : ∀ l ∈ (List.range (img.height / cy)).map (gridRowSpec img cx cy (cx * cy)),
      l.length = img.width / cx := by
    intro l hl
    rw [List.mem_map] at hl
    obtain ⟨a, _, ha⟩ := hl
    rw [← ha]
    exact gridRowSpec_length img cx cy (cx * cy) a
  have hyc3 : yc < ((List.range (img.height / cy)).map
      (gridRowSpec img cx cy (cx * cy))).length := by
    simpa using hyc
  rw [show gridSpec img cx cy
      = ((List.range (img.height / cy)).map (gridRowSpec img cx cy (cx * cy))).flatten
      from rfl]
  rw [flatten_slice _ _ hlen yc hyc3]
  rw [List.get_eq_getElem]
  simp

/-! ## Claim theorems -/

/-- C2: for chunk_width = 0 or chunk_height = 0 the failure is signalled at
the boundary of main (the block-count division, a divide-by-zero panic,
which is what the spec calls the InvalidChunkDimension error), before
aggregation starts and independently of the image contents; with validated
positive chunk dimensions the core itself never attempts a division by
zero: aggregation runs to completion and its internal divisor
chunks_x * chunks_y is positive. -/
theorem C2_zero_chunk_boundary_panic (cx cy : Nat) :
    ((cx = 0 ∨ cy = 0) →
      ∀ img : Image, computeGridE img cx cy = Except.error PanicKind.divByZero)
    ∧ (0 < cx → 0 < cy → ∀ img : Image,
        computeGridE img cx cy = Except.ok (gridSpec img cx cy) ∧ 0 < cx * cy) := by
  constructor
  · intro h img
    rcases h with h | h
    · subst h
      rfl
    · subst h
      by_cases hcx : cx = 0
      · subst hcx
        rfl
      · have h1 : checkedDiv img.width cx = Except.ok (img.width / cx) := by
          rw [checkedDiv, if_neg hcx]
        rw [computeGridE, h1]
        rfl
  · intro h1 h2 img
    exact ⟨computeGrid_closed img cx cy (by omega) (by omega), Nat.mul_pos h1 h2⟩

/-- Witness for C2: with chunk width 0 the 3-by-2 image aborts with the
boundary divide-by-zero panic. -/
theorem C2_witness :
    computeGridE ⟨3, 2, fun _ _ => ⟨1, 2, 3⟩⟩ 0 5 = Except.error PanicKind.divByZero :=
  (C2_zero_chunk_boundary_panic 0 5).1 (Or.inl rfl) ⟨3, 2, fun _ _ => ⟨1, 2, 3⟩⟩

/-- C4: for validated chunk dimensions, every grid cell is the channelwise
truncating division of the block channel sums (over the block's
chunk_width * chunk_height pixels) by exactly chunk_width * chunk_height;
in particular a single block covering the whole image yields
floor(channel sum over all pixels divided by the pixel count). -/
theorem C4_mean_is_floor_sum_div (img : Image) (cx cy : Nat)
    (hcx : 0 < cx) (hcy : 0 < cy) :
    computeGridE img cx cy
      = Except.ok (((List.range (img.height / cy)).map fun yc =>
          (List.range (img.width / cx)).map fun xc =>
            (blockSum img cx cy xc yc).div (cx * cy)).flatten) := by
  rw [computeGrid_closed img cx cy (by omega) (by omega)]
  rfl

/-- Witness for C4: a 4-by-1 image with 2-by-1 chunks; also checks the
concrete value: both block means are (7, 8, 9). -/
theorem C4_witness :
    computeGridE ⟨4, 1, fun _ _ => ⟨7, 8, 9⟩⟩ 2 1
      = Except.ok (((List.range (1 / 1)).map fun yc =>
          (List.range (4 / 2)).map fun xc =>
            (blockSum ⟨4, 1, fun _ _ => ⟨7, 8, 9⟩⟩ 2 1 xc yc).div (2 * 1)).flatten)
    ∧ computeGridE ⟨4, 1, fun _ _ => ⟨7, 8, 9⟩⟩ 2 1
        = Except.ok [⟨7, 8, 9⟩, ⟨7, 8, 9⟩] :=
  ⟨C4_mean_is_floor_sum_div ⟨4, 1, fun _ _ => ⟨7, 8, 9⟩⟩ 2 1 (by omega) (by omega), rfl⟩

/-- C5: the grid has exactly floor(height / chunk_height) times
floor(width / chunk_width) cells and the printed output has exactly
floor(height / chunk_height) rows; pixels of a residual partial column or
row are never aggregated: two images agreeing on the covered region
produce identical grids whatever their residual pixels hold. -/
theorem C5_block_counts_residual_dropped (img img2 : Image) (cx cy : Nat)
    (hcx : 0 < cx) (hcy : 0 < cy)
    (hw : img2.width = img.width) (hh : img2.height = img.height)
    (hagree : ∀ x y, x < (img.width / cx) * cx → y < (img.height / cy) * cy →
      img2.pix x y = img.pix x y) :
    computeGridE img2 cx cy = computeGridE img cx cy
    ∧ (∃ gl, computeGridE img cx cy = Except.ok gl
        ∧ gl.length = (img.height / cy) * (img.width / cx))
    ∧ (∀ rows, tcolrMain (DynamicImage.rgb8 img) cx cy = Except.ok rows →
        rows.length = img.height / cy) := by
  refine ⟨?_, ⟨gridSpec img cx cy, computeGrid_closed img cx cy (by omega) (by omega),
    gridSpec_length img cx cy⟩, ?_⟩
  · rw [computeGrid_closed img cx cy (by omega) (by omega),
      computeGrid_closed img2 cx cy (by omega) (by omega),
      gridSpec_congr img img2 cx cy hw hh hagree]
  · intro rows hrows
    rw [tcolrMain_rgb8_closed img cx cy (by omega) (by omega)] at hrows
    injection hrows with h
    rw [← h]
    simp

/-- Witness for C5: the boundary scenario of the spec, a 5-by-1 image with
chunk width 2: block_count_x = 2 and repainting the dropped 5th pixel
column does not change the grid. -/
theorem C5_witness :
    computeGridE ⟨5, 1, fun x _ => if x = 4 then ⟨99, 99, 99⟩ else ⟨10, 20, 30⟩⟩ 2 1
      = computeGridE ⟨5, 1, fun _ _ => ⟨10, 20, 30⟩⟩ 2 1 :=
  (C5_block_counts_residual_dropped ⟨5, 1, fun _ _ => ⟨10, 20, 30⟩⟩
    ⟨5, 1, fun x _ => if x = 4 then ⟨99, 99, 99⟩ else ⟨10, 20, 30⟩⟩ 2 1
    (by omega) (by omega) rfl rfl (by
      intro x y hx hy
      have hx4 : x < 4 := by simpa using hx
      show (if x = 4 then (⟨99, 99, 99⟩ : Rgb) else ⟨10, 20, 30⟩) = ⟨10, 20, 30⟩
      rw [if_neg (by omega)])).1

/-- C8: the aggregation loop, run on a state carrying both the borrowed
pixel buffer and the mutable accumulator vector, never writes the buffer
component, and its accumulator component computes exactly the pure flat
aggregation. -/
theorem C8_no_input_mutation (img : Image) (cx cy n_x n_y n : Nat) (rgbs0 : List RGBSum) :
    (aggFlatS cx cy n_x n_y n ⟨img, rgbs0⟩).img = img
    ∧ (aggFlatS cx cy n_x n_y n ⟨img, List.replicate (n_x * n_y) RGBSum.zero⟩).rgbs
        = aggFlat img cx cy n_x n_y n := by
  constructor
  · exact (aggFlatS_spec cx cy n_x n (List.range n_y) ⟨img, rgbs0⟩).1
  · rw [aggFlat]
    exact (aggFlatS_spec cx cy n_x n (List.range n_y)
      ⟨img, List.replicate (n_x * n_y) RGBSum.zero⟩).2

/-- C9: a decoded image that is not 8-bit three-channel RGB aborts with the
"Not an RGB image" panic before any aggregation runs, whatever the chunk
arguments; the pipeline never reaches an aggregation step (and in
particular never invokes the Rgba aggregator impl, which main never
calls). -/
theorem C9_non_rgb_panics_before_aggregation (d : DynamicImage) (cx cy : Nat)
    (h : ∀ b : Image, d ≠ DynamicImage.rgb8 b) :
    tcolrMain d cx cy = Except.error PanicKind.notRgb := by
  cases d with
  | rgb8 b => exact absurd rfl (h b)
  | rgba8 i => rfl
  | rgb16 i => rfl
  | rgba16 i => rfl
  | luma8 w hh p => rfl

/-- Witness for C9: an RGBA8 input panics with the non-RGB message. -/
theorem C9_witness :
    tcolrMain (DynamicImage.rgba8 ⟨2, 2, fun _ _ => ⟨1, 2, 3, 4⟩⟩) 1 1
      = Except.error PanicKind.notRgb :=
  C9_non_rgb_panics_before_aggregation _ 1 1 (fun _ hb => nomatch hb)

/-- C10: the sentinel state (256, 0, 0) never compares equal to any colour
whose red channel is an 8-bit value; the sentinel itself is not valid,
while after absorbing the first cell of any non-empty bounded row the
encoder state is valid (so is_valid is false only before the first cell);
and every run emitted from a non-empty bounded row has count at least 1
and all channels at most 255. -/
theorem C10_sentinel_unreachable :
    (∀ c : RGBSum, c.r < 256 → RgbCount.invalid.is_same_rgb c = false)
    ∧ RgbCount.invalid.is_valid = false
    ∧ (∀ (c : RGBSum) (rest : List RGBSum),
        c.r < 256 ∧ c.g < 256 ∧ c.b < 256 →
        (∀ d ∈ rest, d.r < 256 ∧ d.g < 256 ∧ d.b < 256) →
          ((c :: rest).foldl encodeStep ([], RgbCount.invalid)).2.is_valid = true
          ∧ ∀ rn ∈ encodeRow (c :: rest),
              1 ≤ rn.count ∧ rn.r ≤ 255 ∧ rn.g ≤ 255 ∧ rn.b ≤ 255) := by
  refine ⟨?_, RgbCount.invalid_not_valid, ?_⟩
  · intro c hc
    cases h : RgbCount.invalid.is_same_rgb c with
    | false => rfl
    | true =>
        exfalso
        have h2 := (RgbCount.is_same_rgb_iff _ _).mp h
        rw [RGBSum.eq_iff] at h2
        have h3 : (256 : Nat) = c.r := h2.1
        omega
  · intro c rest hc hrest
    obtain ⟨_, _, hcounts, hvalid⟩ := encodeRow_cons_spec c rest hc hrest
    refine ⟨hvalid, ?_⟩
    intro rn hrn
    obtain ⟨hch1, hch2, hch3⟩ := encodeRow_channels_le (c :: rest) rn hrn
    exact ⟨hcounts rn hrn, hch1, hch2, hch3⟩

/-- Witness for C10: after absorbing the single cell (5, 5, 5) the state is
valid, and the sentinel does not compare equal to (5, 5, 5). -/
theorem C10_witness :
    (([⟨5, 5, 5⟩] : List RGBSum).foldl encodeStep ([], RgbCount.invalid)).2.is_valid = true
    ∧ RgbCount.invalid.is_same_rgb ⟨5, 5, 5⟩ = false :=
  ⟨(C10_sentinel_unreachable.2.2 ⟨5, 5, 5⟩ [] (by decide)
      (fun d hd => nomatch hd)).1,
    C10_sentinel_unreachable.1 ⟨5, 5, 5⟩ (by decide)⟩

/-- C1 counterexample: a 1-by-1 image with chunk width 2 and chunk height 1
has block_count_x = 0 and block_count_y = 1, so its single grid row is
empty; the claim predicts no emitted run, but the pipeline emits one run
(the truncated sentinel, colour (0,0,0), count 1) for that row. -/
theorem C1_counterexample :
    tcolrMain (DynamicImage.rgb8 ⟨1, 1, fun _ _ => ⟨5, 6, 7⟩⟩) 2 1
      = Except.ok [[⟨0, 0, 0, 1⟩]]
    ∧ ([[⟨0, 0, 0, 1⟩]] : List (List Run)) ≠ [[]] := by
  constructor
  · rfl
  · decide

/-- C1 (amended): with block_count_x = 0 and block_count_y > 0 each grid
row is empty, yet the encoder emits exactly one run per row — the
unconditional final emission of the sentinel state, truncated to colour
(0,0,0) with count 1; only a buffer smaller than one chunk in the vertical
dimension (block_count_y = 0) produces no output runs at all. -/
theorem C1_empty_grid_rows (img : Image) (cx cy : Nat) (hcx : 0 < cx) (hcy : 0 < cy) :
    (img.width / cx = 0 →
      tcolrMain (DynamicImage.rgb8 img) cx cy
        = Except.ok (List.replicate (img.height / cy) [⟨0, 0, 0, 1⟩]))
    ∧ (img.height / cy = 0 →
      tcolrMain (DynamicImage.rgb8 img) cx cy = Except.ok []) := by
  constructor
  · intro hnx
    rw [tcolrMain_rgb8_closed img cx cy (by omega) (by omega)]
    refine congrArg Except.ok ?_
    have hrow : ∀ yc : Nat, gridRowSpec img cx cy (cx * cy) yc = [] := by
      intro yc
      unfold gridRowSpec
      rw [hnx]
      simp
    calc (List.range (img.height / cy)).map
          (fun yc => encodeRow (gridRowSpec img cx cy (cx * cy) yc))
        = (List.range (img.height / cy)).map (fun _ => [⟨0, 0, 0, 1⟩]) := by
          refine List.map_congr_left ?_
          intro yc _
          rw [hrow yc, encodeRow_nil_eq]
      _ = List.replicate (img.height / cy) [⟨0, 0, 0, 1⟩] := by
          rw [map_const_eq_replicate]
          simp
  · intro hny
    rw [tcolrMain_rgb8_closed img cx cy (by omega) (by omega), hny]
    rfl

/-- Witness for C1 (amended): a 1-by-3 image with 2-by-1 chunks yields
three empty grid rows, each printed as one sentinel run. -/
theorem C1_witness :
    tcolrMain (DynamicImage.rgb8 ⟨1, 3, fun _ _ => ⟨5, 6, 7⟩⟩) 2 1
      = Except.ok (List.replicate (3 / 1) [⟨0, 0, 0, 1⟩]) :=
  (C1_empty_grid_rows ⟨1, 3, fun _ _ => ⟨5, 6, 7⟩⟩ 2 1 (by omega) (by omega)).1 rfl

/-- C3 counterexample: on the empty grid row (which the pipeline does
process whenever block_count_x = 0 and block_count_y > 0, see
C1_counterexample) the encoder emits the sentinel run, so concatenating its
decoded runs yields a non-empty list instead of the original empty row:
decoding is not a left inverse of encoding there. -/
theorem C3_counterexample :
    decodeRow (encodeRow ([] : List RGBSum)) ≠ ([] : List RGBSum) := by
  decide

/-- C3 (amended): for every NON-empty grid row of a validated 8-bit image,
run-length decoding is a left inverse of encoding: concatenating count
copies of each run colour in emission order reconstructs the row of mean
colours exactly. -/
theorem C3_decode_encode_grid_row (img : Image) (cx cy : Nat)
    (hcx : 0 < cx) (hcy : 0 < cy)
    (h8 : ∀ x y, (img.pix x y).r < 256 ∧ (img.pix x y).g < 256 ∧ (img.pix x y).b < 256)
    (hnx : 0 < img.width / cx) (yc : Nat) (hyc : yc < img.height / cy)
    (g : List RGBSum) (hg : computeGridE img cx cy = Except.ok g) :
    decodeRow (encodeRow ((g.drop (yc * (img.width / cx))).take (img.width / cx)))
      = (g.drop (yc * (img.width / cx))).take (img.width / cx) := by
  rw [computeGrid_closed img cx cy (by omega) (by omega)] at hg
  injection hg with hg2
  subst hg2
  rw [gridSpec_slice img cx cy yc hyc]
  apply decode_encode_of_ne_nil
  · intro hnil
    have hl := gridRowSpec_length img cx cy (cx * cy) yc
    rw [hnil] at hl
    simp at hl
    omega
  · exact gridRowSpec_bounded img cx cy yc hcx hcy h8

/-- Witness for C3 (amended): the single grid row of a 2-by-1 image with
1-by-1 chunks decodes back to itself. -/
theorem C3_witness :
    decodeRow (encodeRow ((([⟨3, 4, 5⟩, ⟨3, 4, 5⟩] : List RGBSum).drop
        (0 * (2 / 1))).take (2 / 1)))
      = (([⟨3, 4, 5⟩, ⟨3, 4, 5⟩] : List RGBSum).drop (0 * (2 / 1))).take (2 / 1) :=
  C3_decode_encode_grid_row ⟨2, 1, fun _ _ => ⟨3, 4, 5⟩⟩ 1 1 (by omega) (by omega)
    (fun _ _ => show (3 : Nat) < 256 ∧ (4 : Nat) < 256 ∧ (5 : Nat) < 256 by decide)
    (by decide) 0 (by decide)
    [⟨3, 4, 5⟩, ⟨3, 4, 5⟩] rfl

/-- C6 counterexample: for the empty grid row (processed by the pipeline
when block_count_x = 0 and block_count_y > 0) the encoder emits the
sentinel run instead of no runs, so the emitted runs do not cover the row
exactly once. -/
theorem C6_counterexample :
    encodeRow ([] : List RGBSum) ≠ ([] : List Run) := by
  decide

/-- C6 (amended): for every NON-empty grid row of a validated 8-bit image,
the emitted runs cover the row exactly once left to right (their decoding
is the row), runs are maximal (adjacent emitted runs always have distinct
colours), every count is at least 1, and the colour comparison used is
exact per-channel equality with no tolerance. -/
theorem C6_runs_cover_maximal (img : Image) (cx cy : Nat)
    (hcx : 0 < cx) (hcy : 0 < cy)
    (h8 : ∀ x y, (img.pix x y).r < 256 ∧ (img.pix x y).g < 256 ∧ (img.pix x y).b < 256)
    (hnx : 0 < img.width / cx) (yc : Nat) (hyc : yc < img.height / cy)
    (g : List RGBSum) (hg : computeGridE img cx cy = Except.ok g) :
    decodeRow (encodeRow ((g.drop (yc * (img.width / cx))).take (img.width / cx)))
      = (g.drop (yc * (img.width / cx))).take (img.width / cx)
    ∧ List.Chain' (fun a b => a ≠ b)
        ((encodeRow ((g.drop (yc * (img.width / cx))).take (img.width / cx))).map runColor)
    ∧ (∀ rn ∈ encodeRow ((g.drop (yc * (img.width / cx))).take (img.width / cx)),
        1 ≤ rn.count)
    ∧ (∀ (st : RgbCount) (o : RGBSum), st.is_same_rgb o = true ↔
        st.rgb_sum.r = o.r ∧ st.rgb_sum.g = o.g ∧ st.rgb_sum.b = o.b) := by
  rw [computeGrid_closed img cx cy (by omega) (by omega)] at hg
  injection hg with hg2
  subst hg2
  rw [gridSpec_slice img cx cy yc hyc]
  have hb := gridRowSpec_bounded img cx cy yc hcx hcy h8
  obtain ⟨c, rest, hrow⟩ : ∃ c rest, gridRowSpec img cx cy (cx * cy) yc = c :: rest := by
    cases hrowe : gridRowSpec img cx cy (cx * cy) yc with
    | nil =>
        exfalso
        have hl := gridRowSpec_length img cx cy (cx * cy) yc
        rw [hrowe] at hl
        simp at hl
        omega
    | cons c rest => exact ⟨c, rest, rfl⟩
  rw [hrow]
  rw [hrow] at hb
  obtain ⟨s1, s2, s3, _⟩ := encodeRow_cons_spec c rest (hb c (by simp))
    (fun d hd => hb d (by simp [hd]))
  refine ⟨s1, s2, s3, ?_⟩
  intro st o
  rw [RgbCount.is_same_rgb_iff, RGBSum.eq_iff]

/-- Witness for C6 (amended): a 2-by-1 image with two different pixel
colours and 1-by-1 chunks: the two emitted runs have distinct colours. -/
theorem C6_witness :
    List.Chain' (fun a b => a ≠ b)
      ((encodeRow ((([⟨1, 1, 1⟩, ⟨2, 2, 2⟩] : List RGBSum).drop
        (0 * (2 / 1))).take (2 / 1))).map runColor) :=
  (C6_runs_cover_maximal ⟨2, 1, fun x _ => if x = 0 then ⟨1, 1, 1⟩ else ⟨2, 2, 2⟩⟩ 1 1
    (by omega) (by omega)
    (fun x y => by
      by_cases hx : x = 0 <;> simp [hx])
    (by decide) 0 (by decide)
    [⟨1, 1, 1⟩, ⟨2, 2, 2⟩] rfl).2.1

/-- C7 counterexample: a uniform 1-by-1 image with chunk width 2 has
block_count_x = 0; its single grid row still encodes to one run, but that
run has count 1, not block_count_x = 0, and carries the truncated sentinel
colour rather than the image colour. -/
theorem C7_counterexample :
    tcolrMain (DynamicImage.rgb8 ⟨1, 1, fun _ _ => ⟨9, 9, 9⟩⟩) 2 1
      = Except.ok [[⟨0, 0, 0, 1⟩]]
    ∧ (⟨0, 0, 0, 1⟩ : Run).count ≠ 1 / 2 := by
  constructor
  · rfl
  · decide

/-- C7 (amended): for a uniform single-colour 8-bit image with validated
chunk dimensions, every mean colour of the grid equals that colour exactly;
and provided block_count_x is at least 1, every grid row encodes to exactly
one run carrying that colour with count block_count_x. -/
theorem C7_uniform_image (w h r g b cx cy : Nat) (hcx : 0 < cx) (hcy : 0 < cy)
    (hr : r < 256) (hg : g < 256) (hb : b < 256) :
    computeGridE ⟨w, h, fun _ _ => ⟨r, g, b⟩⟩ cx cy
      = Except.ok (List.replicate ((h / cy) * (w / cx)) ⟨r, g, b⟩)
    ∧ (0 < w / cx →
        tcolrMain (DynamicImage.rgb8 ⟨w, h, fun _ _ => ⟨r, g, b⟩⟩) cx cy
          = Except.ok (List.replicate (h / cy) [⟨r, g, b, w / cx⟩])) := by
  constructor
  · rw [computeGrid_closed _ cx cy (by omega) (by omega)]
    refine congrArg Except.ok ?_
    rw [show gridSpec ⟨w, h, fun _ _ => ⟨r, g, b⟩⟩ cx cy
        = ((List.range (h / cy)).map
            (gridRowSpec ⟨w, h, fun _ _ => ⟨r, g, b⟩⟩ cx cy (cx * cy))).flatten from rfl]
    have hrows : ((List.range (h / cy)).map
          (gridRowSpec ⟨w, h, fun _ _ => ⟨r, g, b⟩⟩ cx cy (cx * cy)))
        = (List.range (h / cy)).map (fun _ => List.replicate (w / cx) ⟨r, g, b⟩) := by
      refine List.map_congr_left ?_
      intro yc _
      exact gridRowSpec_uniform w h r g b cx cy yc hcx hcy
    rw [hrows, flatten_map_replicate]
  · intro hnx
    rw [tcolrMain_rgb8_closed _ cx cy (by omega) (by omega)]
    refine congrArg Except.ok ?_
    obtain ⟨m, hm⟩ : ∃ m, w / cx = m + 1 := ⟨w / cx - 1, by omega⟩
    have hrow : ∀ yc : Nat,
        encodeRow (gridRowSpec ⟨w, h, fun _ _ => ⟨r, g, b⟩⟩ cx cy (cx * cy) yc)
          = [⟨r, g, b, w / cx⟩] := by
      intro yc
      rw [gridRowSpec_uniform w h r g b cx cy yc hcx hcy, hm,
        encodeRow_replicate ⟨r, g, b⟩ ⟨hr, hg, hb⟩ m]
    calc (List.range (h / cy)).map
          (fun yc => encodeRow (gridRowSpec ⟨w, h, fun _ _ => ⟨r, g, b⟩⟩ cx cy (cx * cy) yc))
        = (List.range (h / cy)).map (fun _ => [⟨r, g, b, w / cx⟩]) := by
          refine List.map_congr_left ?_
          intro yc _
          exact hrow yc
      _ = List.replicate (h / cy) [⟨r, g, b, w / cx⟩] := by
          rw [map_const_eq_replicate]
          simp

/-- Witness for C7 (amended): the spec scenario of a uniform 4-by-1 image
with 2-by-1 chunks: one row, one run (7, 8, 9) with count 2. -/
theorem C7_witness :
    tcolrMain (DynamicImage.rgb8 ⟨4, 1, fun _ _ => ⟨7, 8, 9⟩⟩) 2 1
      = Except.ok (List.replicate (1 / 1) [⟨7, 8, 9, 4 / 2⟩]) :=
  (C7_uniform_image 4 1 7 8 9 2 1 (by omega) (by omega) (by omega) (by omega)
    (by omega)).2 (by omega)

end TColr
